import Mathlib

/-!
The admission webhook lifecycle-injector (`src/lifecycle-injector/main.go`).

A shallow embedding of `processReq`, `decode`, `inject` and `getPatch`.

* Go pointers are `Option` values (`nil` is `none`); reading a field through a
  nil pointer is the run-time panic `GoPanic.nilDereference`.
* A Go function returning `(value, error)` returns a pair whose second
  component is `Option GoError` (`nil` is `none`); a function that can panic
  returns in `Run`.
* `yaml.Unmarshal` (sigs.k8s.io/yaml) and `json.Marshal` are library calls: they
  are the fields of `Env`.  `encodingJsonMarshal` is the behaviour of Go's
  `encoding/json` on a `[]jsonPatch`, used where a claim speaks of the
  serialized bytes.
-/

namespace LifecycleInjector

/-! ## Go run-time model -/

/-- Byte sequences (`[]byte` contents). -/
abbrev Bytes := List UInt8

/-- A Go `[]byte`: `none` is the nil slice. -/
abbrev ByteSlice := Option Bytes

/-- Go `len` of a byte slice: the nil slice has length 0. -/
def len : ByteSlice → Nat
  | none => 0
  | some b => b.length

/-- A Go `error` value, identified with the text of `err.Error()`. -/
abbrev GoError := String

/-- Run-time panics of the program. -/
inductive GoPanic where
  | nilDereference
  deriving DecidableEq, Repr

/-- Outcome of running a Go function: it panics or it returns a value. -/
inductive Run (α : Type) where
  | panic : GoPanic → Run α
  | ret : α → Run α
  deriving DecidableEq, Repr

/-- Sequencing of two computations; a panic in the first aborts the second. -/
def Run.bind {α β : Type} : Run α → (α → Run β) → Run β
  | .panic p, _ => .panic p
  | .ret a, f => f a

/-- Read through a pointer: a nil pointer panics. -/
def deref {α : Type} : Option α → Run α
  | none => .panic .nilDereference
  | some a => .ret a

/-- UTF-8 bytes of a string (the conversion `[]byte(s)`). -/
def utf8 (s : String) : Bytes :=
  s.data.flatMap String.utf8EncodeChar

/-! ## Kubernetes API types (the fields of `k8s.io/api` the program can observe) -/

/-- The type `intstr.IntOrString`. -/
inductive IntOrString where
  | int : Int → IntOrString
  | str : String → IntOrString
  deriving DecidableEq, Repr

/-- The type `corev1.ExecAction`. -/
structure ExecAction where
  Command : List String := []
  deriving DecidableEq, Repr

/-- The type `corev1.HTTPHeader`. -/
structure HTTPHeader where
  Name : String := ""
  Value : String := ""
  deriving DecidableEq, Repr

/-- The type `corev1.HTTPGetAction`. -/
structure HTTPGetAction where
  Path : String := ""
  Port : IntOrString := .int 0
  Host : String := ""
  Scheme : String := ""
  HTTPHeaders : List HTTPHeader := []
  deriving DecidableEq, Repr

/-- The type `corev1.TCPSocketAction`. -/
structure TCPSocketAction where
  Port : IntOrString := .int 0
  Host : String := ""
  deriving DecidableEq, Repr

/-- The type `corev1.Handler`. -/
structure Handler where
  Exec : Option ExecAction := none
  HTTPGet : Option HTTPGetAction := none
  TCPSocket : Option TCPSocketAction := none
  deriving DecidableEq, Repr

/-- The type `corev1.Lifecycle`. -/
structure Lifecycle where
  PostStart : Option Handler := none
  PreStop : Option Handler := none
  deriving DecidableEq, Repr

/-- The type `corev1.Container`: the two fields `getPatch` reads. -/
structure Container where
  Name : String := ""
  Lifecycle : Option Lifecycle := none
  deriving DecidableEq, Repr

/-- The type `corev1.PodSpec`. -/
structure PodSpec where
  Containers : List Container := []
  deriving DecidableEq, Repr

/-- The type `corev1.Pod`. -/
structure Pod where
  Spec : PodSpec := {}
  deriving DecidableEq, Repr

/-- The type `runtime.RawExtension`. -/
structure RawExtension where
  Raw : Bytes := []
  deriving DecidableEq, Repr

/-- The type `admissionv1beta1.AdmissionRequest`. -/
structure AdmissionRequest where
  UID : String := ""
  Object : RawExtension := {}
  deriving DecidableEq, Repr

/-- The type `metav1.Status`. -/
structure Status where
  Message : String := ""
  deriving DecidableEq, Repr

/-- The string type `admissionv1beta1.PatchType`. -/
abbrev PatchType := String

/-- The constant `admissionv1beta1.PatchTypeJSONPatch`. -/
def PatchTypeJSONPatch : PatchType := "JSONPatch"

/-- The type `admissionv1beta1.AdmissionResponse`. -/
structure AdmissionResponse where
  UID : String := ""
  Allowed : Bool := false
  Result : Option Status := none
  Patch : ByteSlice := none
  PatchType : Option PatchType := none
  deriving DecidableEq, Repr

/-- The type `admissionv1beta1.AdmissionReview`. -/
structure AdmissionReview where
  Kind : String := ""
  APIVersion : String := ""
  Request : Option AdmissionRequest := none
  Response : Option AdmissionResponse := none
  deriving DecidableEq, Repr

/-- The struct `jsonPatch` of main.go. -/
structure jsonPatch where
  Op : String := ""
  Path : String := ""
  Value : Option Lifecycle := none
  deriving DecidableEq, Repr

/-! ## Library calls -/

/-- The library calls of the program.  `yaml.Unmarshal(data, &v)` takes the
bytes and the value `v` holds before the call and gives the value it holds
after the call together with the returned error. -/
structure Env where
  yamlUnmarshalReview : Bytes → AdmissionReview → AdmissionReview × Option GoError
  yamlUnmarshalPod : Bytes → Option Pod → Option Pod × Option GoError
  jsonMarshal : List jsonPatch → ByteSlice × Option GoError

/-! ## The program -/

/-- The format call `fmt.Sprintf("/spec/containers/%d/lifecycle", i)`. -/
def sprintfPath (i : Nat) : String :=
  "/spec/containers/" ++ toString i ++ "/lifecycle"

/-- The value of every patch entry (main.go lines 153-163). -/
def preStopLifecycle : Lifecycle :=
  { PreStop := some { Exec := some { Command := ["/bin/bash", "-c", "sleep 5"] } } }

/-- First loop of `getPatch` (lines 135-144): `j` is the index of the head of
the remaining containers, `pre` the indices appended so far. -/
def preLoop : Nat → List Container → List Nat → List Nat
  | _, [], pre => pre
  | j, container :: rest, pre =>
    if container.Lifecycle ≠ none then
      preLoop (j + 1) rest pre
    else if container.Name = "linkerd-proxy" then
      preLoop (j + 1) rest (pre ++ [j])
    else
      preLoop (j + 1) rest pre

/-- Second loop of `getPatch` (lines 148-166): one entry appended per index. -/
def patchLoop : List Nat → List jsonPatch → List jsonPatch
  | [], patch => patch
  | i :: rest, patch =>
    patchLoop rest
      (patch ++ [{ Op := "add", Path := sprintfPath i, Value := some preStopLifecycle }])

/-- The list `patch` that `getPatch` has built when it reaches line 168. -/
def patchEntries (pod : Pod) : List jsonPatch :=
  patchLoop (preLoop 0 pod.Spec.Containers []) []

/-- The function `getPatch` (lines 127-179). -/
def getPatch (E : Env) (bytes : Bytes) : Run (ByteSlice × Option GoError) :=
  match E.yamlUnmarshalPod bytes none with
  | (_, some err) => .ret (none, some err)
  | (pod, none) =>
    (deref pod).bind fun p =>
      let pre := preLoop 0 p.Spec.Containers []
      let patch := patchLoop pre []
      if pre.length = 0 then
        .ret (none, none)
      else
        match E.jsonMarshal patch with
        | (_, some err) => .ret (none, some err)
        | (b, none) => .ret (b, none)

/-- The function `inject` (lines 95-119). -/
def inject (E : Env) (request : Option AdmissionRequest) :
    Run (Option AdmissionResponse × Option GoError) :=
  (deref request).bind fun req =>
    let admissionResponse : AdmissionResponse := { UID := req.UID, Allowed := true }
    (getPatch E req.Object.Raw).bind fun r =>
      match r with
      | (_, some err) => .ret (none, some err)
      | (patchJSON, none) =>
        if len patchJSON = 0 then
          .ret (some admissionResponse, none)
        else
          let patchType := PatchTypeJSONPatch
          .ret (some { admissionResponse with Patch := patchJSON, PatchType := some patchType },
            none)

/-- The function `decode` (lines 89-93). -/
def decode (E : Env) (data : Bytes) : AdmissionReview × Option GoError :=
  let admissionReview : AdmissionReview := {}
  E.yamlUnmarshalReview data admissionReview

/-- The function `processReq` (lines 57-87). -/
def processReq (E : Env) (data : Bytes) : Run AdmissionReview :=
  match decode E data with
  | (admissionReview, some err) =>
    (deref admissionReview.Request).bind fun request =>
      .ret { admissionReview with
        Response := some { UID := request.UID, Allowed := false,
                           Result := some { Message := err } } }
  | (admissionReview, none) =>
    -- line 70 reads `admissionReview.Request.UID` for the log line
    (deref admissionReview.Request).bind fun request =>
      (inject E admissionReview.Request).bind fun r =>
        match r with
        | (_, some err) =>
          .ret { admissionReview with
            Response := some { UID := request.UID, Allowed := false,
                               Result := some { Message := err } } }
        | (admissionResponse, none) =>
          .ret { admissionReview with Response := admissionResponse }

/-! ## Go's `encoding/json` on a `[]jsonPatch` -/

/-- Encoding of one character inside a JSON string, as `encoding/json` writes
it with HTML escaping on: quote and backslash are escaped, line feed, carriage
return and tab have short escapes, other control characters and `<`, `>`, `&`
are written as a six-character unicode escape, as are U+2028 and U+2029. -/
def jsonEscape (c : Char) : List Char :=
  if c = '"' then ['\\', '"']
  else if c = '\\' then ['\\', '\\']
  else if c = '\n' then ['\\', 'n']
  else if c = '\r' then ['\\', 'r']
  else if c = '\t' then ['\\', 't']
  else if c.toNat < 0x20 ∨ c = '<' ∨ c = '>' ∨ c = '&' then
    ['\\', 'u', '0', '0', Nat.digitChar (c.toNat / 16), Nat.digitChar (c.toNat % 16)]
  else if c.toNat = 0x2028 then ['\\', 'u', '2', '0', '2', '8']
  else if c.toNat = 0x2029 then ['\\', 'u', '2', '0', '2', '9']
  else [c]

/-- A Go string as a JSON string. -/
def jsonString (s : String) : String :=
  "\"" ++ String.mk (s.data.flatMap jsonEscape) ++ "\""

/-- A JSON array of already encoded items. -/
def jsonArray (items : List String) : String :=
  "[" ++ ",".intercalate items ++ "]"

/-- A JSON object of already encoded members; `none` is a member left out. -/
def jsonObject (members : List (Option String)) : String :=
  "\x7b" ++ ",".intercalate (members.filterMap id) ++ "\x7d"

/-- A struct field that is always written. -/
def member (key value : String) : Option String :=
  some (jsonString key ++ ":" ++ value)

/-- A pointer field tagged `omitempty`: a nil pointer is left out. -/
def memberPtr (key : String) : Option String → Option String
  | none => none
  | some value => member key value

/-- A string field tagged `omitempty`: the empty string is left out. -/
def memberStr (key s : String) : Option String :=
  if s = "" then none else member key (jsonString s)

/-- Encoding of an `intstr.IntOrString`. -/
def marshalIntOrString : IntOrString → String
  | .int v => toString v
  | .str s => jsonString s

/-- Encoding of a `corev1.ExecAction`. -/
def marshalExecAction (a : ExecAction) : String :=
  jsonObject
    [if a.Command = [] then none else member "command" (jsonArray (a.Command.map jsonString))]

/-- Encoding of a `corev1.HTTPHeader`. -/
def marshalHTTPHeader (h : HTTPHeader) : String :=
  jsonObject [member "name" (jsonString h.Name), member "value" (jsonString h.Value)]

/-- Encoding of a `corev1.HTTPGetAction`. -/
def marshalHTTPGetAction (a : HTTPGetAction) : String :=
  jsonObject
    [memberStr "path" a.Path,
     member "port" (marshalIntOrString a.Port),
     memberStr "host" a.Host,
     memberStr "scheme" a.Scheme,
     if a.HTTPHeaders = [] then none
     else member "httpHeaders" (jsonArray (a.HTTPHeaders.map marshalHTTPHeader))]

/-- Encoding of a `corev1.TCPSocketAction`. -/
def marshalTCPSocketAction (a : TCPSocketAction) : String :=
  jsonObject [member "port" (marshalIntOrString a.Port), memberStr "host" a.Host]

/-- Encoding of a `corev1.Handler`. -/
def marshalHandler (h : Handler) : String :=
  jsonObject
    [memberPtr "exec" (h.Exec.map marshalExecAction),
     memberPtr "httpGet" (h.HTTPGet.map marshalHTTPGetAction),
     memberPtr "tcpSocket" (h.TCPSocket.map marshalTCPSocketAction)]

/-- Encoding of a `corev1.Lifecycle`. -/
def marshalLifecycle (l : Lifecycle) : String :=
  jsonObject
    [memberPtr "postStart" (l.PostStart.map marshalHandler),
     memberPtr "preStop" (l.PreStop.map marshalHandler)]

/-- Encoding of a `jsonPatch`, by its field tags `op`, `path`, `value`; a nil
`Value` is written `null`. -/
def marshalJsonPatch (p : jsonPatch) : String :=
  jsonObject
    [member "op" (jsonString p.Op),
     member "path" (jsonString p.Path),
     member "value" (match p.Value with
       | none => "null"
       | some l => marshalLifecycle l)]

/-- Text written by `json.Marshal(patch)` for a non-nil `[]jsonPatch`. -/
def marshalText (patch : List jsonPatch) : String :=
  jsonArray (patch.map marshalJsonPatch)

/-- The call `json.Marshal(patch)` on a `[]jsonPatch`: it never fails. -/
def encodingJsonMarshal (patch : List jsonPatch) : ByteSlice × Option GoError :=
  (some (utf8 (marshalText patch)), none)

/-- The environment with the given YAML decoders and Go's JSON encoder. -/
def goEnv (yamlUnmarshalReview : Bytes → AdmissionReview → AdmissionReview × Option GoError)
    (yamlUnmarshalPod : Bytes → Option Pod → Option Pod × Option GoError) : Env :=
  { yamlUnmarshalReview := yamlUnmarshalReview
    yamlUnmarshalPod := yamlUnmarshalPod
    jsonMarshal := encodingJsonMarshal }

/-! ## Specification-side definitions -/

/-- A container the specification selects: named exactly `linkerd-proxy` and
with the lifecycle field unset. -/
def eligible (c : Container) : Prop :=
  c.Name = "linkerd-proxy" ∧ c.Lifecycle = none

instance (c : Container) : Decidable (eligible c) := by
  unfold eligible; infer_instance

/-- The patch entry the specification gives for the container at index `i`:
op `add`, path `/spec/containers/i/lifecycle`, value the pre-stop exec hook
running `/bin/bash -c "sleep 5"`. -/
def specEntry (i : Nat) : jsonPatch :=
  { Op := "add"
    Path := "/spec/containers/" ++ toString i ++ "/lifecycle"
    Value := some
      { PreStop := some { Exec := some { Command := ["/bin/bash", "-c", "sleep 5"] } } } }

/-- The patch list as the specification words it: scanning the containers in
their given order, one entry per index of an eligible container. -/
def specPatchEntries (containers : List Container) : List jsonPatch :=
  (containers.enum.filter fun p => decide (eligible p.2)).map fun p => specEntry p.1

/-- Applying one JSON Patch entry to a container list, as the specification
words it: an `add` entry sets the lifecycle field of the container at the
index named in its path to the entry's value; names and order are unchanged. -/
def applyEntry (e : jsonPatch) (containers : List Container) : List Container :=
  containers.enum.map fun p =>
    if e.Op = "add" ∧ e.Path = "/spec/containers/" ++ toString p.1 ++ "/lifecycle" then
      { p.2 with Lifecycle := e.Value }
    else p.2

/-- Applying a patch to a Pod: its entries are applied in order. -/
def applyPatch (patch : List jsonPatch) (pod : Pod) : Pod :=
  { pod with Spec := { pod.Spec with
      Containers := patch.foldl (fun cs e => applyEntry e cs) pod.Spec.Containers } }

/-- The outcome "no patch" for a request: `getPatch` returns the nil slice and
no error, and `inject` answers with an allow that carries no patch bytes and no
patch type. -/
def noPatchOutcome (E : Env) (req : AdmissionRequest) : Prop :=
  getPatch E req.Object.Raw = .ret (none, none) ∧
  inject E (some req) =
    .ret (some { UID := req.UID, Allowed := true, Result := none,
                 Patch := none, PatchType := none }, none)

/-- The denial `processReq` builds for an error with text `msg`. -/
def denial (uid : String) (msg : GoError) : AdmissionResponse :=
  { UID := uid, Allowed := false, Result := some { Message := msg },
    Patch := none, PatchType := none }

/-! ## Sample inputs -/

/-- A Pod with containers `app` and `linkerd-proxy`, neither with a lifecycle. -/
def podTwo : Pod :=
  { Spec := { Containers := [{ Name := "app" }, { Name := "linkerd-proxy" }] } }

/-- The Pod `podTwo` with the pre-stop hook on its `linkerd-proxy` container. -/
def podTwoPatched : Pod :=
  { Spec := { Containers :=
      [{ Name := "app" },
       { Name := "linkerd-proxy"
         Lifecycle := some
           { PreStop := some { Exec := some { Command := ["/bin/bash", "-c", "sleep 5"] } } } }] } }

/-- A Pod whose `linkerd-proxy` container already has a lifecycle. -/
def podDone : Pod :=
  { Spec := { Containers := [{ Name := "linkerd-proxy", Lifecycle := some {} }] } }

/-- Serialized `podTwo`. -/
def rawPodTwo : Bytes :=
  utf8 "\x7b\"spec\":\x7b\"containers\":[\x7b\"name\":\"app\"\x7d,\x7b\"name\":\"linkerd-proxy\"\x7d]\x7d\x7d"

/-- Serialized `podTwo` after its patch has been applied. -/
def rawPodTwoPatched : Bytes :=
  utf8 "\x7b\"spec\":\x7b\"containers\":[\x7b\"name\":\"app\"\x7d,\x7b\"name\":\"linkerd-proxy\",\"lifecycle\":\x7b\"preStop\":\x7b\"exec\":\x7b\"command\":[\"/bin/bash\",\"-c\",\"sleep 5\"]\x7d\x7d\x7d\x7d]\x7d\x7d"

/-- Serialized `podDone`. -/
def rawPodDone : Bytes :=
  utf8 "\x7b\"spec\":\x7b\"containers\":[\x7b\"lifecycle\":\x7b\x7d,\"name\":\"linkerd-proxy\"\x7d]\x7d\x7d"

/-- The document `null`. -/
def rawNull : Bytes := utf8 "null"

/-- A Pod document whose `spec` has the wrong type. -/
def rawBadPod : Bytes := utf8 "\x7b\"spec\":7\x7d"

/-- Sample behaviour of `yaml.Unmarshal(bytes, &pod)`: the documents above
decode to their Pods, `null` and the empty input leave the pointer nil without
an error, and anything else is reported as an error. -/
def sampleUnmarshalPod (bytes : Bytes) (pod : Option Pod) : Option Pod × Option GoError :=
  if bytes = rawPodTwo then (some podTwo, none)
  else if bytes = rawPodTwoPatched then (some podTwoPatched, none)
  else if bytes = rawPodDone then (some podDone, none)
  else if bytes = rawNull ∨ bytes = [] then (pod, none)
  else (pod, some "error unmarshaling JSON: while decoding JSON: json: cannot unmarshal number into Go struct field Pod.spec of type v1.PodSpec")

/-- Request body carrying `podTwo`. -/
def bodyTwo : Bytes :=
  utf8 "\x7b\"request\":\x7b\"uid\":\"u-1\",\"object\":\x7b\"spec\":\x7b\"containers\":[\x7b\"name\":\"app\"\x7d,\x7b\"name\":\"linkerd-proxy\"\x7d]\x7d\x7d\x7d\x7d"

/-- Request body carrying `podDone`. -/
def bodyDone : Bytes :=
  utf8 "\x7b\"request\":\x7b\"uid\":\"u-2\",\"object\":\x7b\"spec\":\x7b\"containers\":[\x7b\"lifecycle\":\x7b\x7d,\"name\":\"linkerd-proxy\"\x7d]\x7d\x7d\x7d\x7d"

/-- Request body carrying a Pod document of the wrong type. -/
def bodyBadPod : Bytes :=
  utf8 "\x7b\"request\":\x7b\"uid\":\"u-3\",\"object\":\x7b\"spec\":7\x7d\x7d\x7d"

/-- Request body with a request and no object. -/
def bodyNoObject : Bytes := utf8 "\x7b\"request\":\x7b\"uid\":\"u-4\"\x7d\x7d"

/-- Request body with a request and a field of the wrong type. -/
def bodyWrongType : Bytes := utf8 "\x7b\"request\":\x7b\"uid\":\"u-5\"\x7d,\"kind\":5\x7d"

/-- A body that is neither JSON nor YAML. -/
def bodyMalformed : Bytes := utf8 "\x7b"

/-- Sample behaviour of `yaml.Unmarshal(data, &admissionReview)`: the bodies
above decode to their reviews (the last with an error after the request was
filled in), and any other body is a syntax error that fills in nothing. -/
def sampleUnmarshalReview (data : Bytes) (review : AdmissionReview) :
    AdmissionReview × Option GoError :=
  if data = bodyTwo then
    ({ review with Request := some { UID := "u-1", Object := { Raw := rawPodTwo } } }, none)
  else if data = bodyDone then
    ({ review with Request := some { UID := "u-2", Object := { Raw := rawPodDone } } }, none)
  else if data = bodyBadPod then
    ({ review with Request := some { UID := "u-3", Object := { Raw := rawBadPod } } }, none)
  else if data = bodyNoObject then
    ({ review with Request := some { UID := "u-4" } }, none)
  else if data = bodyWrongType then
    ({ review with Request := some { UID := "u-5" } },
      some "error unmarshaling JSON: while decoding JSON: json: cannot unmarshal number into Go struct field AdmissionReview.kind of type string")
  else
    (review, some "error converting YAML to JSON: yaml: line 1: did not find expected node content")

/-- The review `processReq` returns for `bodyWrongType`. -/
def reviewWrongTypeDenied : AdmissionReview :=
  { Request := some { UID := "u-5" }
    Response := some (denial "u-5" "error unmarshaling JSON: while decoding JSON: json: cannot unmarshal number into Go struct field AdmissionReview.kind of type string") }

/-- The sample environment: the sample decoders with Go's JSON encoder. -/
def sampleEnv : Env := goEnv sampleUnmarshalReview sampleUnmarshalPod

/-- The sample decoders with a JSON encoder that reports an error. -/
def failingMarshalEnv : Env :=
  { yamlUnmarshalReview := sampleUnmarshalReview
    yamlUnmarshalPod := sampleUnmarshalPod
    jsonMarshal := fun _ => (none, some "json: unsupported value") }

/-! ## Lemmas: the two loops of `getPatch` -/

theorem preLoop_eq (cs : List Container) : ∀ (j : Nat) (pre : List Nat),
    preLoop j cs pre
      = pre ++ ((cs.enumFrom j).filter fun p => decide (eligible p.2)).map Prod.fst := by
  induction cs with
  | nil => intro j pre; simp [preLoop]
  | cons c rest ih =>
    intro j pre
    by_cases hl : c.Lifecycle = none
    · by_cases hn : c.Name = "linkerd-proxy"
      · simp [preLoop, hl, hn, ih, eligible, List.enumFrom_cons]
      · simp [preLoop, hl, hn, ih, eligible, List.enumFrom_cons]
    · simp [preLoop, hl, ih, eligible, List.enumFrom_cons]

theorem patchLoop_eq (pre : List Nat) : ∀ (patch : List jsonPatch),
    patchLoop pre patch = patch ++ pre.map specEntry := by
  induction pre with
  | nil => intro patch; simp [patchLoop]
  | cons i rest ih =>
    intro patch
    simp [patchLoop, ih, specEntry, sprintfPath, preStopLifecycle]

theorem patchEntries_eq (pod : Pod) :
    patchEntries pod = specPatchEntries pod.Spec.Containers := by
  simp [patchEntries, specPatchEntries, preLoop_eq, patchLoop_eq, List.enum, List.map_map,
    Function.comp_def]

theorem preLoop_length_eq_zero (pod : Pod) :
    (preLoop 0 pod.Spec.Containers []).length = 0 ↔ patchEntries pod = [] := by
  rw [patchEntries, patchLoop_eq]
  simp

theorem specPatchEntries_eq_nil (cs : List Container) :
    specPatchEntries cs = [] ↔ ∀ c ∈ cs, ¬ eligible c := by
  unfold specPatchEntries
  rw [List.map_eq_nil_iff, List.filter_eq_nil_iff]
  constructor
  · intro h c hc
    obtain ⟨k, hk, rfl⟩ := List.mem_iff_getElem.1 hc
    have := h (k, cs[k]) (by
      rw [List.mk_mem_enum_iff_getElem?]
      exact List.getElem?_eq_getElem hk)
    simpa using this
  · intro h p hp
    have hmem : p.2 ∈ cs := by
      have : (p.1, p.2) ∈ cs.enum := hp
      rw [List.mk_mem_enum_iff_getElem?] at this
      exact List.getElem?_mem this
    simpa using h p.2 hmem

theorem specEntry_mem (cs : List Container) (k : Nat) (c : Container)
    (hc : cs[k]? = some c) (he : eligible c) : specEntry k ∈ specPatchEntries cs := by
  unfold specPatchEntries
  refine List.mem_map.2 ⟨(k, c), ?_, rfl⟩
  refine List.mem_filter.2 ⟨List.mk_mem_enum_iff_getElem?.2 hc, ?_⟩
  simpa using he

theorem filter_enumFrom_nil (cs : List Container) : ∀ (j : Nat),
    (∀ c ∈ cs, ¬ eligible c) →
    (cs.enumFrom j).filter (fun p => decide (eligible p.2)) = [] := by
  induction cs with
  | nil => intro j _; rfl
  | cons a rest ih =>
    intro j h
    have ha : ¬ eligible a := h a (List.mem_cons_self _ _)
    simp only [List.enumFrom_cons, List.filter_cons, ha, decide_False]
    exact ih (j + 1) (fun c hc => h c (List.mem_cons_of_mem _ hc))

theorem filter_enumFrom_unique (cs : List Container) : ∀ (j index : Nat) (c : Container),
    cs[index]? = some c → eligible c →
    (∀ k c', cs[k]? = some c' → eligible c' → k = index) →
    (cs.enumFrom j).filter (fun p => decide (eligible p.2)) = [(j + index, c)] := by
  induction cs with
  | nil => intro j index c hc; simp at hc
  | cons a rest ih =>
    intro j index c hc he hu
    cases index with
    | zero =>
      have hac : a = c := by simpa using hc
      subst hac
      have hrest : ∀ c' ∈ rest, ¬ eligible c' := by
        intro c' hc' he'
        obtain ⟨k, hk⟩ := List.getElem?_of_mem hc'
        have := hu (k + 1) c' (by simpa using hk) he'
        omega
      simp only [List.enumFrom_cons, List.filter_cons, he, decide_True, if_true,
        filter_enumFrom_nil rest (j + 1) hrest, Nat.add_zero]
    | succ i =>
      have ha : ¬ eligible a := by
        intro he'
        have := hu 0 a (by simp) he'
        omega
      have hc' : rest[i]? = some c := by simpa using hc
      have hu' : ∀ k c', rest[k]? = some c' → eligible c' → k = i := by
        intro k c' hk he'
        have := hu (k + 1) c' (by simpa using hk) he'
        omega
      simp only [List.enumFrom_cons, List.filter_cons, ha, decide_False]
      rw [ih (j + 1) i c hc' he hu']
      simp only [Bool.false_eq_true, if_false]
      congr 2
      omega

theorem specPatchEntries_unique (cs : List Container) (index : Nat) (c : Container)
    (hc : cs[index]? = some c) (he : eligible c)
    (hu : ∀ k c', cs[k]? = some c' → eligible c' → k = index) :
    specPatchEntries cs = [specEntry index] := by
  unfold specPatchEntries List.enum
  rw [filter_enumFrom_unique cs 0 index c hc he hu]
  simp

/-! ## Lemmas: `getPatch`, `inject`, `processReq` -/

/-- The result of `getPatch` once the Pod has been decoded to a non-nil Pod. -/
theorem getPatch_of_pod (E : Env) (bytes : Bytes) (pod : Pod)
    (h : E.yamlUnmarshalPod bytes none = (some pod, none)) :
    getPatch E bytes =
      if patchEntries pod = [] then .ret (none, none)
      else match E.jsonMarshal (patchEntries pod) with
        | (_, some err) => .ret (none, some err)
        | (b, none) => .ret (b, none) := by
  have hz := preLoop_length_eq_zero pod
  by_cases hp : patchEntries pod = []
  · have h0 := hz.2 hp
    simp only [getPatch, h, deref, Run.bind, h0, hp, if_true]
  · have h0 : ¬ (preLoop 0 pod.Spec.Containers []).length = 0 := fun h0 => hp (hz.1 h0)
    simp only [getPatch, h, deref, Run.bind, h0, hp, if_false]
    rfl

/-- An error of `yaml.Unmarshal` on the Pod is returned by `getPatch`. -/
theorem getPatch_unmarshal_error (E : Env) (bytes : Bytes) (pod : Option Pod) (e : GoError)
    (h : E.yamlUnmarshalPod bytes none = (pod, some e)) :
    getPatch E bytes = .ret (none, some e) := by
  simp only [getPatch, h]

/-- A nil Pod without error makes `getPatch` panic at `pod.Spec.Containers`. -/
theorem getPatch_nil_pod (E : Env) (bytes : Bytes)
    (h : E.yamlUnmarshalPod bytes none = (none, none)) :
    getPatch E bytes = .panic .nilDereference := by
  simp only [getPatch, h, deref, Run.bind]

/-- Every result `getPatch` returns without error is the nil slice or non-nil. -/
theorem getPatch_cases (E : Env) (bytes : Bytes) :
    getPatch E bytes = .panic .nilDereference ∨
    (∃ e, getPatch E bytes = .ret (none, some e)) ∨
    (∃ b, getPatch E bytes = .ret (b, none)) := by
  rcases hu : E.yamlUnmarshalPod bytes none with ⟨pod, err⟩
  cases err with
  | some e => exact Or.inr (Or.inl ⟨e, getPatch_unmarshal_error E bytes pod e hu⟩)
  | none =>
    cases pod with
    | none => exact Or.inl (getPatch_nil_pod E bytes hu)
    | some p =>
      rw [getPatch_of_pod E bytes p hu]
      by_cases hp : patchEntries p = []
      · exact Or.inr (Or.inr ⟨none, by rw [if_pos hp]⟩)
      · rw [if_neg hp]
        rcases hm : E.jsonMarshal (patchEntries p) with ⟨b, err⟩
        cases err with
        | some e => exact Or.inr (Or.inl ⟨e, rfl⟩)
        | none => exact Or.inr (Or.inr ⟨b, rfl⟩)

/-- The result of `inject` on a present request, in terms of `getPatch`. -/
theorem inject_some (E : Env) (req : AdmissionRequest) :
    inject E (some req) =
      (getPatch E req.Object.Raw).bind fun r =>
        match r with
        | (_, some err) => .ret (none, some err)
        | (patchJSON, none) =>
          if len patchJSON = 0 then
            .ret (some { UID := req.UID, Allowed := true }, none)
          else
            .ret (some { UID := req.UID, Allowed := true, Patch := patchJSON,
                         PatchType := some PatchTypeJSONPatch }, none) := rfl

/-- No eligible container: the "no patch" outcome. -/
theorem noPatchOutcome_of_not_eligible (E : Env) (req : AdmissionRequest) (pod : Pod)
    (h : E.yamlUnmarshalPod req.Object.Raw none = (some pod, none))
    (hne : ∀ c ∈ pod.Spec.Containers, ¬ eligible c) : noPatchOutcome E req := by
  have hp : patchEntries pod = [] := by
    rw [patchEntries_eq]; exact (specPatchEntries_eq_nil _).2 hne
  have hg : getPatch E req.Object.Raw = .ret (none, none) := by
    rw [getPatch_of_pod E _ pod h, if_pos hp]
  refine ⟨hg, ?_⟩
  rw [inject_some, hg]
  rfl

/-- Every response `inject` returns without error: an allow, either bare or
with non-empty patch bytes and the JSON-Patch type. -/
theorem inject_ok_cases (E : Env) (request : Option AdmissionRequest)
    (resp : Option AdmissionResponse) (h : inject E request = .ret (resp, none)) :
    ∃ req, request = some req ∧
      (resp = some { UID := req.UID, Allowed := true } ∨
       ∃ b, 0 < len b ∧ getPatch E req.Object.Raw = .ret (b, none) ∧
         resp = some { UID := req.UID, Allowed := true, Patch := b,
                       PatchType := some PatchTypeJSONPatch }) := by
  cases request with
  | none => simp [inject, deref, Run.bind] at h
  | some req =>
    refine ⟨req, rfl, ?_⟩
    rw [inject_some] at h
    rcases getPatch_cases E req.Object.Raw with hg | ⟨e, hg⟩ | ⟨b, hg⟩
    · rw [hg] at h; simp [Run.bind] at h
    · rw [hg] at h; simp [Run.bind] at h
    · rw [hg] at h
      by_cases hl : len b = 0
      · simp only [Run.bind, hl, if_true, Run.ret.injEq, Prod.mk.injEq, and_true] at h
        exact Or.inl h.symm
      · simp only [Run.bind, hl, if_false, Run.ret.injEq, Prod.mk.injEq, and_true] at h
        exact Or.inr ⟨b, Nat.pos_of_ne_zero hl, hg, h.symm⟩

/-- The error path of `processReq` (lines 59-69) with a request present. -/
theorem processReq_decode_error (E : Env) (data : Bytes) (review : AdmissionReview)
    (req : AdmissionRequest) (e : GoError)
    (hd : decode E data = (review, some e)) (hr : review.Request = some req) :
    processReq E data = .ret { review with Response := some (denial req.UID e) } := by
  simp only [processReq, hd, hr, deref, Run.bind, denial]

/-- The path of `processReq` after a decode without error (lines 70-86). -/
theorem processReq_decoded (E : Env) (data : Bytes) (review : AdmissionReview)
    (req : AdmissionRequest)
    (hd : decode E data = (review, none)) (hr : review.Request = some req) :
    processReq E data =
      (inject E (some req)).bind fun r =>
        match r with
        | (_, some err) => .ret { review with Response := some (denial req.UID err) }
        | (admissionResponse, none) => .ret { review with Response := admissionResponse } := by
  simp only [processReq, hd, hr, deref, Run.bind, denial]

/-- An error of `getPatch` becomes a denial of `processReq`. -/
theorem processReq_getPatch_error (E : Env) (data : Bytes) (review : AdmissionReview)
    (req : AdmissionRequest) (b : ByteSlice) (e : GoError)
    (hd : decode E data = (review, none)) (hr : review.Request = some req)
    (hg : getPatch E req.Object.Raw = .ret (b, some e)) :
    processReq E data = .ret { review with Response := some (denial req.UID e) } := by
  rw [processReq_decoded E data review req hd hr, inject_some, hg]
  rfl

/-- A result of `getPatch` without error becomes an allow of `processReq`. -/
theorem processReq_getPatch_ok (E : Env) (data : Bytes) (review : AdmissionReview)
    (req : AdmissionRequest) (b : ByteSlice)
    (hd : decode E data = (review, none)) (hr : review.Request = some req)
    (hg : getPatch E req.Object.Raw = .ret (b, none)) :
    processReq E data =
      .ret { review with
        Response := some (if len b = 0 then { UID := req.UID, Allowed := true }
          else { UID := req.UID, Allowed := true, Patch := b,
                 PatchType := some PatchTypeJSONPatch }) } := by
  rw [processReq_decoded E data review req hd hr, inject_some, hg]
  by_cases hl : len b = 0
  · simp only [Run.bind, hl, if_true]
  · simp only [Run.bind, hl, if_false]

/-! ## Lemmas: the JSON encoding of a patch entry -/

theorem jsonEscape_digit (d : Nat) (h : d < 10) : jsonEscape (Nat.digitChar d) = [Nat.digitChar d] := by
  interval_cases d <;> decide

theorem toDigitsCore_digits (f : Nat) : ∀ (n : Nat) (acc : List Char) (c : Char),
    c ∈ Nat.toDigitsCore 10 f n acc → c ∈ acc ∨ ∃ d, d < 10 ∧ c = Nat.digitChar d := by
  induction f with
  | zero => intro n acc c h; simp [Nat.toDigitsCore] at h; exact Or.inl h
  | succ f ih =>
    intro n acc c h
    simp only [Nat.toDigitsCore] at h
    split at h
    · rcases List.mem_cons.1 h with h | h
      · exact Or.inr ⟨n % 10, Nat.mod_lt _ (by decide), h⟩
      · exact Or.inl h
    · rcases ih _ _ _ h with h | h
      · rcases List.mem_cons.1 h with h | h
        · exact Or.inr ⟨n % 10, Nat.mod_lt _ (by decide), h⟩
        · exact Or.inl h
      · exact Or.inr h

theorem flatMap_jsonEscape_id (l : List Char) (h : ∀ c ∈ l, jsonEscape c = [c]) :
    l.flatMap jsonEscape = l := by
  induction l with
  | nil => rfl
  | cons a t ih =>
    rw [List.flatMap_cons, h a (List.mem_cons_self _ _), ih (fun c hc => h c (List.mem_cons_of_mem _ hc))]
    rfl

theorem toString_data_escape (i : Nat) :
    (toString i).data.flatMap jsonEscape = (toString i).data := by
  apply flatMap_jsonEscape_id
  intro c hc
  have hc' : c ∈ Nat.toDigitsCore 10 (i + 1) i [] := hc
  rcases toDigitsCore_digits _ _ _ _ hc' with h | ⟨d, hd, rfl⟩
  · simp at h
  · exact jsonEscape_digit d hd

theorem jsonString_path (i : Nat) :
    jsonString ("/spec/containers/" ++ toString i ++ "/lifecycle")
      = "\"/spec/containers/" ++ toString i ++ "/lifecycle\"" := by
  apply String.ext
  simp only [jsonString, String.data_append, List.flatMap_append, toString_data_escape]
  simp only [List.append_assoc, List.cons_append, List.nil_append]
  rfl

theorem marshalText_specEntry (i : Nat) :
    marshalText [specEntry i] =
      "[\x7b\"op\":\"add\",\"path\":\"/spec/containers/" ++ toString i ++
        "/lifecycle\",\"value\":\x7b\"preStop\":\x7b\"exec\":\x7b\"command\":[\"/bin/bash\",\"-c\",\"sleep 5\"]\x7d\x7d\x7d\x7d]" := by
  simp only [marshalText, List.map, marshalJsonPatch, specEntry, jsonString_path]
  generalize toString i = d
  apply String.ext
  simp only [jsonArray, jsonObject, member, String.intercalate, String.intercalate.go,
    List.filterMap, String.data_append, id, List.append_assoc, List.cons_append,
    List.nil_append]
  rfl

theorem utf8_marshalText_ne_nil (patch : List jsonPatch) : utf8 (marshalText patch) ≠ [] := by
  have h : ∃ rest, (marshalText patch).data = '[' :: rest := by
    refine ⟨(",".intercalate (patch.map marshalJsonPatch)).data ++ [']'], ?_⟩
    simp only [marshalText, jsonArray, String.data_append, List.append_assoc]
    rfl
  obtain ⟨rest, hr⟩ := h
  simp only [utf8, hr, List.flatMap_cons]
  intro h0
  have := congrArg List.length h0
  have h1 : (String.utf8EncodeChar '[').length = 1 := by decide
  simp only [List.length_append, h1, List.length_nil] at this
  omega

/-! ## Lemmas: applying a patch -/

theorem digitChar_toNat (d : Nat) (h : d < 10) : (Nat.digitChar d).toNat - 48 = d := by
  interval_cases d <;> rfl

theorem foldl_toDigitsCore (f : Nat) : ∀ (n : Nat) (acc : List Char), n < f →
    (Nat.toDigitsCore 10 f n acc).foldl (fun a c => a * 10 + (c.toNat - 48)) 0
      = acc.foldl (fun a c => a * 10 + (c.toNat - 48)) n := by
  induction f with
  | zero => intro n acc h; omega
  | succ f ih =>
    intro n acc h
    have hd := digitChar_toNat (n % 10) (Nat.mod_lt _ (by decide))
    simp only [Nat.toDigitsCore]
    split
    · rename_i h0
      simp only [List.foldl_cons, hd]
      congr 1
      omega
    · rename_i h0
      rw [ih (n / 10) _ (by omega)]
      simp only [List.foldl_cons, hd]
      congr 1
      omega

theorem toString_nat_injective (i j : Nat) (h : toString i = toString j) : i = j := by
  have hi := foldl_toDigitsCore (i + 1) i [] (Nat.lt_succ_self i)
  have hj := foldl_toDigitsCore (j + 1) j [] (Nat.lt_succ_self j)
  have hd : Nat.toDigitsCore 10 (i + 1) i [] = Nat.toDigitsCore 10 (j + 1) j [] :=
    congrArg String.data h
  rw [hd, hj] at hi
  simpa using hi.symm

theorem path_injective (i j : Nat)
    (h : "/spec/containers/" ++ toString i ++ "/lifecycle"
       = "/spec/containers/" ++ toString j ++ "/lifecycle") : i = j := by
  apply toString_nat_injective
  have hd := congrArg String.data h
  simp only [String.data_append, List.append_assoc] at hd
  have h1 := List.append_cancel_left hd
  have h2 := List.append_cancel_right h1
  exact String.ext h2

theorem applyEntry_getElem? (e : jsonPatch) (cs : List Container) (k : Nat) :
    (applyEntry e cs)[k]? = cs[k]?.map fun c =>
      if e.Op = "add" ∧ e.Path = "/spec/containers/" ++ toString k ++ "/lifecycle" then
        { c with Lifecycle := e.Value }
      else c := by
  unfold applyEntry
  rw [List.getElem?_map, List.getElem?_enum]
  cases cs[k]? <;> rfl

theorem foldl_applyEntry_getElem? (l : Lifecycle) (es : List jsonPatch)
    (hes : ∀ e ∈ es, e.Op = "add" ∧ e.Value = some l) :
    ∀ (cs : List Container) (k : Nat),
    (es.foldl (fun cs e => applyEntry e cs) cs)[k]? = cs[k]?.map fun c =>
      if es.any (fun e => decide (e.Path = "/spec/containers/" ++ toString k ++ "/lifecycle"))
      then { c with Lifecycle := some l } else c := by
  induction es with
  | nil => intro cs k; rw [List.foldl_nil]; cases cs[k]? <;> rfl
  | cons e es ih =>
    intro cs k
    obtain ⟨hop, hval⟩ := hes e (List.mem_cons_self _ _)
    rw [List.foldl_cons, ih (fun e' he' => hes e' (List.mem_cons_of_mem _ he')),
      applyEntry_getElem?]
    cases cs[k]? with
    | none => rfl
    | some c =>
      simp only [Option.map_some', List.any_cons, hop, hval, true_and, Bool.or_eq_true,
        decide_eq_true_eq]
      by_cases h1 : e.Path = "/spec/containers/" ++ toString k ++ "/lifecycle"
      · simp only [h1, if_true, true_or]
        split <;> rfl
      · simp only [h1, if_false, false_or]

/-- The patch built for a Pod sets the hook on its eligible containers and
changes nothing else. -/
theorem applyPatch_containers (pod : Pod) :
    (applyPatch (patchEntries pod) pod).Spec.Containers
      = pod.Spec.Containers.map fun c =>
          if eligible c then { c with Lifecycle := some preStopLifecycle } else c := by
  apply List.ext_getElem?
  intro k
  have hes : ∀ e ∈ specPatchEntries pod.Spec.Containers,
      e.Op = "add" ∧ e.Value = some preStopLifecycle := by
    intro e he
    obtain ⟨p, _, rfl⟩ := List.mem_map.1 he
    exact ⟨rfl, rfl⟩
  simp only [applyPatch, patchEntries_eq]
  rw [foldl_applyEntry_getElem? preStopLifecycle _ hes, List.getElem?_map]
  cases hc : pod.Spec.Containers[k]? with
  | none => rfl
  | some c =>
    simp only [Option.map_some']
    congr 1
    by_cases he : eligible c
    · have hmem := specEntry_mem _ k c hc he
      have hany : (specPatchEntries pod.Spec.Containers).any (fun e =>
          decide (e.Path = "/spec/containers/" ++ toString k ++ "/lifecycle")) = true :=
        List.any_eq_true.2 ⟨specEntry k, hmem, by simp [specEntry]⟩
      rw [if_pos hany, if_pos he]
    · have hany : ¬ (specPatchEntries pod.Spec.Containers).any (fun e =>
          decide (e.Path = "/spec/containers/" ++ toString k ++ "/lifecycle")) = true := by
        intro hany
        obtain ⟨e, hmem, hpath⟩ := List.any_eq_true.1 hany
        obtain ⟨p, hp, rfl⟩ := List.mem_map.1 hmem
        obtain ⟨hpe, hpel⟩ := List.mem_filter.1 hp
        have hik : p.1 = k := path_injective _ _ (by simpa [specEntry] using hpath)
        have hget : pod.Spec.Containers[p.1]? = some p.2 :=
          List.mk_mem_enum_iff_getElem?.1 hpe
        rw [hik, hc] at hget
        injection hget with hget
        exact he (hget ▸ of_decide_eq_true hpel)
      rw [if_neg hany, if_neg he]

/-! ## Claims -/

/-- C1: when the Pod deserializes to a non-null Pod, the list of patch entries
built by `getPatch` is exactly the list the specification describes (one `add`
entry per index, in increasing order, of a container named `linkerd-proxy` with
nil lifecycle, with path `/spec/containers/i/lifecycle` and the pre-stop
`sleep 5` hook as value), and what `getPatch` returns is decided by that list
alone: nil when it is empty, else the result of serializing it. -/
theorem C1_getPatch_entries (E : Env) (bytes : Bytes) (pod : Pod)
    (h : E.yamlUnmarshalPod bytes none = (some pod, none)) :
    patchEntries pod = specPatchEntries pod.Spec.Containers ∧
    getPatch E bytes =
      if specPatchEntries pod.Spec.Containers = [] then .ret (none, none)
      else match E.jsonMarshal (specPatchEntries pod.Spec.Containers) with
        | (_, some err) => .ret (none, some err)
        | (b, none) => .ret (b, none) := by
  refine ⟨patchEntries_eq pod, ?_⟩
  rw [getPatch_of_pod E bytes pod h, patchEntries_eq]

/-- C1 at the sample Pod `[app, linkerd-proxy]`: one entry, for index 1. -/
theorem C1_getPatch_entries_witness :
    patchEntries podTwo = [specEntry 1] ∧
    getPatch sampleEnv rawPodTwo = .ret (some (utf8 (marshalText [specEntry 1])), none) := by
  have h := C1_getPatch_entries sampleEnv rawPodTwo podTwo (by rfl)
  exact ⟨h.1.trans (by decide), h.2.trans (by rfl)⟩

/-- C2: applying to a Pod the patch entries `getPatch` builds for it (each `add`
entry sets the lifecycle of the container at the index its path names; names
and order of the containers stay as they are) sets the hook on the eligible
containers and nothing else, and on the patched Pod `getPatch` builds no entry
and returns nil. -/
theorem C2_idempotent (E : Env) (bytes : Bytes) (pod : Pod)
    (h : E.yamlUnmarshalPod bytes none = (some (applyPatch (patchEntries pod) pod), none)) :
    getPatch E bytes = .ret (none, none) ∧
    patchEntries (applyPatch (patchEntries pod) pod) = [] ∧
    (applyPatch (patchEntries pod) pod).Spec.Containers
      = pod.Spec.Containers.map fun c =>
          if eligible c then { c with Lifecycle := some preStopLifecycle } else c := by
  have hne : ∀ c ∈ (applyPatch (patchEntries pod) pod).Spec.Containers, ¬ eligible c := by
    intro c hc
    rw [applyPatch_containers] at hc
    obtain ⟨c0, _, rfl⟩ := List.mem_map.1 hc
    by_cases he : eligible c0
    · rw [if_pos he]
      intro h'
      cases h'.2
    · rw [if_neg he]
      exact he
  have hp : patchEntries (applyPatch (patchEntries pod) pod) = [] := by
    rw [patchEntries_eq]
    exact (specPatchEntries_eq_nil _).2 hne
  refine ⟨?_, hp, applyPatch_containers pod⟩
  rw [getPatch_of_pod E bytes _ h, if_pos hp]

/-- C2 at the sample Pod `[app, linkerd-proxy]`: the patched Pod has the hook on
its second container and gets no patch. -/
theorem C2_idempotent_witness :
    applyPatch (patchEntries podTwo) podTwo = podTwoPatched ∧
    getPatch sampleEnv rawPodTwoPatched = .ret (none, none) :=
  ⟨by decide, (C2_idempotent sampleEnv rawPodTwoPatched podTwo (by rfl)).1⟩

/-- C3: a Pod without eligible container (in particular a Pod without a
container named `linkerd-proxy`, and a Pod with no container at all) gets no
patch: `getPatch` returns nil, not the bytes of `[]`, and the response of
`inject` has `Allowed = true`, no patch bytes and no patch type. -/
theorem C3_no_eligible_no_patch (E : Env) (req : AdmissionRequest) (pod : Pod)
    (h : E.yamlUnmarshalPod req.Object.Raw none = (some pod, none)) :
    ((∀ c ∈ pod.Spec.Containers, ¬ eligible c) → noPatchOutcome E req) ∧
    ((∀ c ∈ pod.Spec.Containers, c.Name ≠ "linkerd-proxy") → noPatchOutcome E req) ∧
    (pod.Spec.Containers = [] → noPatchOutcome E req) := by
  refine ⟨noPatchOutcome_of_not_eligible E req pod h, ?_, ?_⟩
  · intro hn
    exact noPatchOutcome_of_not_eligible E req pod h (fun c hc he => hn c hc he.1)
  · intro he
    exact noPatchOutcome_of_not_eligible E req pod h (by simp [he])

/-- C3 at the sample Pod whose `linkerd-proxy` container has a lifecycle. -/
theorem C3_no_eligible_no_patch_witness :
    getPatch sampleEnv rawPodDone = .ret (none, none) ∧
    inject sampleEnv (some { UID := "u-2", Object := { Raw := rawPodDone } }) =
      .ret (some { UID := "u-2", Allowed := true, Result := none,
                   Patch := none, PatchType := none }, none) :=
  (C3_no_eligible_no_patch sampleEnv { UID := "u-2", Object := { Raw := rawPodDone } } podDone
    (by rfl)).1 (by decide)

/-- C4: with a Request present in the decoded AdmissionReview, `processReq`
returns a review whose Response carries the UID of the Request in each of the
three outcomes: the AdmissionReview decode reported an error; the Pod decode or
the patch serialization reported an error (`getPatch` returned an error); the
request was processed successfully (`getPatch` returned without error, with or
without a patch). -/
theorem C4_response_uid (E : Env) (data : Bytes) (req : AdmissionRequest)
    (hr : (decode E data).1.Request = some req)
    (h : (∃ e, (decode E data).2 = some e) ∨
         ((decode E data).2 = none ∧ ∃ b e, getPatch E req.Object.Raw = .ret (b, some e)) ∨
         ((decode E data).2 = none ∧ ∃ b, getPatch E req.Object.Raw = .ret (b, none))) :
    ∃ review resp, processReq E data = .ret review ∧ review.Request = some req ∧
      review.Response = some resp ∧ resp.UID = req.UID := by
  rcases hd : decode E data with ⟨review, err⟩
  rw [hd] at hr h
  simp only at hr h
  rcases h with ⟨e, he⟩ | ⟨hn, b, e, hg⟩ | ⟨hn, b, hg⟩
  · subst he
    exact ⟨_, _, processReq_decode_error E data review req e hd hr, hr, rfl, rfl⟩
  · subst hn
    exact ⟨_, _, processReq_getPatch_error E data review req b e hd hr hg, hr, rfl, rfl⟩
  · subst hn
    refine ⟨_, _, processReq_getPatch_ok E data review req b hd hr hg, hr, rfl, ?_⟩
    by_cases hl : len b = 0
    · rw [if_pos hl]
    · rw [if_neg hl]

/-- C4 on a sample body that is patched: the response UID is `u-1`. -/
theorem C4_response_uid_witness :
    ∃ review resp, processReq sampleEnv bodyTwo = .ret review ∧
      review.Request = some { UID := "u-1", Object := { Raw := rawPodTwo } } ∧
      review.Response = some resp ∧ resp.UID = "u-1" :=
  C4_response_uid sampleEnv bodyTwo { UID := "u-1", Object := { Raw := rawPodTwo } } (by rfl)
    (Or.inr (Or.inr ⟨by rfl, _, by rfl⟩))

/-- C5 (the code faults): when `decode` reports an error and the returned
AdmissionReview has no Request, `processReq` does not return a denial: it
panics on the nil pointer at `admissionReview.Request.UID` (line 62). -/
theorem C5_decode_error_without_request_panics (E : Env) (data : Bytes) (e : GoError)
    (he : (decode E data).2 = some e) (hr : (decode E data).1.Request = none) :
    processReq E data = .panic .nilDereference := by
  rcases hd : decode E data with ⟨review, err⟩
  rw [hd] at he hr
  simp only at he hr
  subst he
  simp only [processReq, hd, hr, deref, Run.bind]

/-- C5 at the sample malformed body. -/
theorem C5_decode_error_without_request_panics_witness :
    (decode sampleEnv bodyMalformed).2 =
      some "error converting YAML to JSON: yaml: line 1: did not find expected node content" ∧
    processReq sampleEnv bodyMalformed = .panic .nilDereference :=
  ⟨by rfl, C5_decode_error_without_request_panics sampleEnv bodyMalformed _ (by rfl) (by rfl)⟩

/-- C6: when the AdmissionReview decodes without error and has a Request,
`processReq` answers a failing Pod deserialization with a denial - `Allowed`
false, `Result.Message` the text of the error, no patch and no patch type - and
answers a failing serialization of the patch list the same way. -/
theorem C6_pod_error_denial (E : Env) (data : Bytes) (review : AdmissionReview)
    (req : AdmissionRequest)
    (hd : decode E data = (review, none)) (hr : review.Request = some req) :
    (∀ pod e, E.yamlUnmarshalPod req.Object.Raw none = (pod, some e) →
      processReq E data = .ret { review with
        Response := some { UID := req.UID, Allowed := false, Result := some { Message := e },
                           Patch := none, PatchType := none } }) ∧
    (∀ pod b e, E.yamlUnmarshalPod req.Object.Raw none = (some pod, none) →
      patchEntries pod ≠ [] → E.jsonMarshal (patchEntries pod) = (b, some e) →
      processReq E data = .ret { review with
        Response := some { UID := req.UID, Allowed := false, Result := some { Message := e },
                           Patch := none, PatchType := none } }) := by
  constructor
  · intro pod e hu
    exact processReq_getPatch_error E data review req none e hd hr
      (getPatch_unmarshal_error E _ pod e hu)
  · intro pod b e hu hp hm
    refine processReq_getPatch_error E data review req none e hd hr ?_
    rw [getPatch_of_pod E _ pod hu, if_neg hp, hm]

/-- C6 on the sample body whose Pod document has the wrong type. -/
theorem C6_pod_error_denial_witness :
    processReq sampleEnv bodyBadPod = .ret
      { Request := some { UID := "u-3", Object := { Raw := rawBadPod } }
        Response := some
          { UID := "u-3", Allowed := false
            Result := some { Message := "error unmarshaling JSON: while decoding JSON: json: cannot unmarshal number into Go struct field Pod.spec of type v1.PodSpec" }
            Patch := none, PatchType := none } } :=
  (C6_pod_error_denial sampleEnv bodyBadPod
    { Request := some { UID := "u-3", Object := { Raw := rawBadPod } } }
    { UID := "u-3", Object := { Raw := rawBadPod } } (by rfl) rfl).1 none _ (by rfl)

/-- C7: when the Pod deserializes and has an eligible container, `inject` (with
Go's JSON encoder) returns without error an allow whose Patch is exactly the
bytes `getPatch` returned and whose PatchType is `JSONPatch`; and in every
response `inject` returns without error, under any environment, the patch type
is set exactly when patch bytes are attached. -/
theorem C7_patch_attached :
    (∀ (yr : Bytes → AdmissionReview → AdmissionReview × Option GoError)
       (yp : Bytes → Option Pod → Option Pod × Option GoError)
       (req : AdmissionRequest) (pod : Pod),
      yp req.Object.Raw none = (some pod, none) →
      (∃ c ∈ pod.Spec.Containers, eligible c) →
      ∃ b, b ≠ [] ∧ getPatch (goEnv yr yp) req.Object.Raw = .ret (some b, none) ∧
        inject (goEnv yr yp) (some req) =
          .ret (some { UID := req.UID, Allowed := true, Result := none,
                       Patch := some b, PatchType := some "JSONPatch" }, none)) ∧
    (∀ (E : Env) (request : Option AdmissionRequest) (resp : AdmissionResponse),
      inject E request = .ret (some resp, none) →
      (resp.PatchType = some "JSONPatch" ↔ 0 < len resp.Patch) ∧
      (resp.PatchType = none ↔ len resp.Patch = 0)) := by
  constructor
  · intro yr yp req pod h he
    have hp : patchEntries pod ≠ [] := by
      rw [patchEntries_eq]
      intro hnil
      obtain ⟨c, hc, hec⟩ := he
      exact (specPatchEntries_eq_nil _).1 hnil c hc hec
    have hg : getPatch (goEnv yr yp) req.Object.Raw
        = .ret (some (utf8 (marshalText (patchEntries pod))), none) := by
      rw [getPatch_of_pod (goEnv yr yp) _ pod h, if_neg hp]
      rfl
    have hb := utf8_marshalText_ne_nil (patchEntries pod)
    refine ⟨_, hb, hg, ?_⟩
    have hl : ¬ len (some (utf8 (marshalText (patchEntries pod)))) = 0 := by
      simpa [len] using hb
    rw [inject_some, hg]
    simp only [Run.bind, hl, if_false]
    rfl
  · intro E request resp h
    obtain ⟨req, _, h | ⟨b, hb, _, h⟩⟩ := inject_ok_cases E request _ h
    · cases h
      simp [len]
    · cases h
      simp only [true_and]
      constructor
      · exact ⟨fun _ => hb, fun _ => rfl⟩
      · constructor
        · intro h; cases h
        · intro h; omega

/-- C7 on the sample request carrying `[app, linkerd-proxy]`. -/
theorem C7_patch_attached_witness :
    ∃ b, b ≠ [] ∧ getPatch sampleEnv rawPodTwo = .ret (some b, none) ∧
      inject sampleEnv (some { UID := "u-1", Object := { Raw := rawPodTwo } }) =
        .ret (some { UID := "u-1", Allowed := true, Result := none,
                     Patch := some b, PatchType := some "JSONPatch" }, none) :=
  C7_patch_attached.1 sampleUnmarshalReview sampleUnmarshalPod
    { UID := "u-1", Object := { Raw := rawPodTwo } } podTwo (by rfl)
    ⟨{ Name := "linkerd-proxy" }, by decide, by decide⟩

/-- C8: for a Pod with exactly one eligible container, at position `index`,
`getPatch` (with Go's JSON encoder) returns the bytes of the one-element JSON
array with the `add` entry for `/spec/containers/<index>/lifecycle`, `<index>`
in decimal. -/
theorem C8_single_entry_bytes
    (yr : Bytes → AdmissionReview → AdmissionReview × Option GoError)
    (yp : Bytes → Option Pod → Option Pod × Option GoError)
    (bytes : Bytes) (pod : Pod) (index : Nat) (c : Container)
    (h : yp bytes none = (some pod, none))
    (hc : pod.Spec.Containers[index]? = some c)
    (hn : c.Name = "linkerd-proxy") (hl : c.Lifecycle = none)
    (hu : ∀ k c', pod.Spec.Containers[k]? = some c' →
      c'.Name = "linkerd-proxy" → c'.Lifecycle = none → k = index) :
    getPatch (goEnv yr yp) bytes = .ret (some (utf8
      ("[\x7b\"op\":\"add\",\"path\":\"/spec/containers/" ++ toString index ++
        "/lifecycle\",\"value\":\x7b\"preStop\":\x7b\"exec\":\x7b\"command\":[\"/bin/bash\",\"-c\",\"sleep 5\"]\x7d\x7d\x7d\x7d]")),
      none) := by
  have hs : specPatchEntries pod.Spec.Containers = [specEntry index] :=
    specPatchEntries_unique _ index c hc ⟨hn, hl⟩ (fun k c' hk he => hu k c' hk he.1 he.2)
  have hp : patchEntries pod = [specEntry index] := (patchEntries_eq pod).trans hs
  have hg := getPatch_of_pod (goEnv yr yp) bytes pod h
  rw [hp, if_neg (by simp)] at hg
  rw [hg, ← marshalText_specEntry]
  rfl

/-- C8 at the Pod `[app, linkerd-proxy]` of the specification's example: the
array with index 1. -/
theorem C8_single_entry_bytes_witness :
    getPatch sampleEnv rawPodTwo = .ret (some (utf8
      "[\x7b\"op\":\"add\",\"path\":\"/spec/containers/1/lifecycle\",\"value\":\x7b\"preStop\":\x7b\"exec\":\x7b\"command\":[\"/bin/bash\",\"-c\",\"sleep 5\"]\x7d\x7d\x7d\x7d]"),
      none) :=
  C8_single_entry_bytes sampleUnmarshalReview sampleUnmarshalPod rawPodTwo podTwo 1
    { Name := "linkerd-proxy" } (by rfl) (by rfl) rfl rfl (by
      intro k c' hk hn' _
      match k, hk with
      | 0, hk => simp [podTwo] at hk; subst hk; simp at hn'
      | 1, _ => rfl
      | k + 2, hk => simp [podTwo] at hk)

/-- C9: the Response of every review `processReq` returns is an allow
(`Allowed` true, no Result, and either no patch and no patch type or non-empty
patch bytes with the JSON-Patch type) or a denial (`Allowed` false, a Result
whose message is the text of the decode error or of the `getPatch` error, no
patch and no patch type). -/
theorem C9_allow_or_deny (E : Env) (data : Bytes) (review : AdmissionReview)
    (h : processReq E data = .ret review) :
    ∃ resp, review.Response = some resp ∧
      ((resp.Allowed = true ∧ resp.Result = none ∧
          ((resp.Patch = none ∧ resp.PatchType = none) ∨
           (0 < len resp.Patch ∧ resp.PatchType = some "JSONPatch"))) ∨
       (resp.Allowed = false ∧ resp.Patch = none ∧ resp.PatchType = none ∧
          ∃ e, resp.Result = some { Message := e } ∧
            ((decode E data).2 = some e ∨
             ∃ req b, (decode E data).1.Request = some req ∧
               getPatch E req.Object.Raw = .ret (b, some e)))) := by
  rcases hd : decode E data with ⟨rev, err⟩
  cases hreq : rev.Request with
  | none =>
    cases err <;> simp [processReq, hd, hreq, deref, Run.bind] at h
  | some req =>
    cases err with
    | some e =>
      rw [processReq_decode_error E data rev req e hd hreq] at h
      cases h
      exact ⟨_, rfl, Or.inr ⟨rfl, rfl, rfl, e, rfl, Or.inl rfl⟩⟩
    | none =>
      rcases getPatch_cases E req.Object.Raw with hg | ⟨e, hg⟩ | ⟨b, hg⟩
      · rw [processReq_decoded E data rev req hd hreq, inject_some, hg] at h
        simp [Run.bind] at h
      · rw [processReq_getPatch_error E data rev req none e hd hreq hg] at h
        cases h
        exact ⟨_, rfl, Or.inr ⟨rfl, rfl, rfl, e, rfl, Or.inr ⟨req, none, rfl, hg⟩⟩⟩
      · rw [processReq_getPatch_ok E data rev req b hd hreq hg] at h
        cases h
        by_cases hl : len b = 0
        · exact ⟨_, rfl, Or.inl (by simp [hl])⟩
        · refine ⟨_, rfl, Or.inl ?_⟩
          simp only [hl, if_false, true_and]
          exact Or.inr ⟨Nat.pos_of_ne_zero hl, rfl⟩

/-- C9 on the sample body with a field of the wrong type: a denial. -/
theorem C9_allow_or_deny_witness :
    processReq sampleEnv bodyWrongType = .ret reviewWrongTypeDenied ∧
    ∃ resp, reviewWrongTypeDenied.Response = some resp ∧
      ((resp.Allowed = true ∧ resp.Result = none ∧
          ((resp.Patch = none ∧ resp.PatchType = none) ∨
           (0 < len resp.Patch ∧ resp.PatchType = some "JSONPatch"))) ∨
       (resp.Allowed = false ∧ resp.Patch = none ∧ resp.PatchType = none ∧
          ∃ e, resp.Result = some { Message := e } ∧
            ((decode sampleEnv bodyWrongType).2 = some e ∨
             ∃ req b, (decode sampleEnv bodyWrongType).1.Request = some req ∧
               getPatch sampleEnv req.Object.Raw = .ret (b, some e)))) :=
  ⟨by rfl, C9_allow_or_deny sampleEnv bodyWrongType reviewWrongTypeDenied (by rfl)⟩

/-- C10 (the code faults): when the AdmissionReview decodes without error, has a
Request, and the raw object deserializes without error to a nil Pod,
`processReq` returns no review: `getPatch` reads `pod.Spec.Containers` through
the nil pointer (line 135) and the panic leaves `processReq`. -/
theorem C10_nil_pod_panics (E : Env) (data : Bytes) (review : AdmissionReview)
    (req : AdmissionRequest)
    (hd : decode E data = (review, none)) (hr : review.Request = some req)
    (hu : E.yamlUnmarshalPod req.Object.Raw none = (none, none)) :
    processReq E data = .panic .nilDereference := by
  rw [processReq_decoded E data review req hd hr, inject_some, getPatch_nil_pod E _ hu]
  rfl

/-- C10 at the sample body whose request has no object. -/
theorem C10_nil_pod_panics_witness :
    processReq sampleEnv bodyNoObject = .panic .nilDereference :=
  C10_nil_pod_panics sampleEnv bodyNoObject { Request := some { UID := "u-4" } }
    { UID := "u-4" } (by rfl) rfl (by rfl)

end LifecycleInjector
